import Mathlib

/-
Shallow embedding of the sandboxed tool executor and the agent
orchestration loop of the gemini_agent package (src/gemini_agent/tools.py,
src/gemini_agent/agent.py, src/gemini_agent/config.py).

A Python str is a sequence of code points; we embed it as List Char.
The filesystem is an association list from resolved path to contents.
The remote model is an oracle: a list of responses consumed one per
generate_content call.  The subprocess layer behind run_shell is an
abstract outcome (completed with stdout, stderr and exit code, timeout,
or launch failure) supplied as a parameter.
-/

namespace GeminiAgent

/-- Python strings, embedded as lists of characters. -/
abbrev Str := List Char

/-! ## Path guard: validate_path (tools.py lines 12-18, cli_agent.py 19-25)

WORK_DIR is os.path.abspath of a relative directory, hence an absolute
path with no trailing slash; we parametrize by it.  os.path.abspath of
an already absolute path is os.path.normpath, which resolves dot and
dot-dot components lexically (it does not follow symlinks). -/

/-- Split a character list on a separator, keeping empty pieces, like
Python str.split with a one character separator. -/
def splitSep (sep : Char) : Str → List Str
  | [] => [[]]
  | c :: cs =>
    if c = sep then [] :: splitSep sep cs
    else
      match splitSep sep cs with
      | [] => [[c]]
      | l :: ls => (c :: l) :: ls

/-- Lexical normalization of the component list of an absolute path, as
os.path.normpath does it: empty and dot components vanish, a dot-dot
component pops the previous component (and is dropped at the root). -/
def normParts (parts : List Str) : List Str :=
  parts.foldl
    (fun acc p =>
      if p = [] ∨ p = ['.'] then acc
      else if p = ['.', '.'] then acc.dropLast
      else acc ++ [p])
    []

/-- Join the components of an absolute path back together. -/
def joinSep (sep : Char) : List Str → Str
  | [] => []
  | [l] => l
  | l :: ls => l ++ sep :: joinSep sep ls

/-- os.path.normpath on an absolute path (and hence os.path.abspath on
it, since abspath of an absolute path only normalizes). -/
def normpathAbs (s : Str) : Str :=
  '/' :: joinSep '/' (normParts (splitSep '/' s))

/-- os.path.join(wd, p): an absolute p discards wd; otherwise the two
are glued with a slash unless wd is empty or already ends in one. -/
def osJoin (wd p : Str) : Str :=
  if p.head? = some '/' then p
  else if wd = [] ∨ wd.getLast? = some '/' then wd ++ p
  else wd ++ '/' :: p

/-- tools.py validate_path: abspath(join(WORK_DIR, path)), then a raw
startswith check against WORK_DIR; a failing check raises ValueError
with the SECURITY ALERT message (embedded as the error branch). -/
def validate_path (wd p : Str) : Except Str Str :=
  let full := normpathAbs (osJoin wd p)
  if wd.isPrefixOf full then Except.ok full
  else Except.error
    ("SECURITY ALERT: Access denied to ".toList ++ p ++
      ". Stay in ".toList ++ wd)

/-- Written from the words of the specification, for comparison with the
code: a path is the sandbox root or a descendant of it when it equals
the root or extends it past a path separator. -/
def specDescendant (root p : Str) : Prop :=
  p = root ∨ (root ++ ['/']).isPrefixOf p

instance (root p : Str) : Decidable (specDescendant root p) := by
  unfold specDescendant; infer_instance

/-! ## String helpers shared by the tools (Python splitlines, strip) -/

/-- The characters Python str.splitlines treats as line boundaries:
line feed, carriage return, vertical tab, form feed, the file, group
and record separators, next line, and the Unicode line and paragraph
separators (the carriage return plus line feed pair counts as one
boundary, handled in splitlinesL itself). -/
def isLineBreak (c : Char) : Bool :=
  c = '\n' ∨ c = '\r' ∨ c = '\x0b' ∨ c = '\x0c' ∨ c = '\x1c' ∨
    c = '\x1d' ∨ c = '\x1e' ∨ c = '\x85' ∨ c = '\u2028' ∨ c = '\u2029'

/-- Python str.splitlines: it cuts at every line boundary character,
treats a carriage return immediately followed by a line feed as a
single boundary, and does not produce a final empty piece for a
trailing boundary. -/
def splitlinesL : Str → List Str
  | [] => []
  | '\r' :: '\n' :: cs => [] :: splitlinesL cs
  | c :: cs =>
    if isLineBreak c then [] :: splitlinesL cs
    else
      match splitlinesL cs with
      | [] => [[c]]
      | l :: ls => (c :: l) :: ls

/-- Universal newline decoding, as open(path, mode with r and
newline=None) performs on read: a carriage return plus line feed pair
and a lone carriage return are both translated to a line feed.  (On
write, text mode with newline=None replaces line feeds with os.linesep,
which is itself the line feed on the Linux platform this program
targets, so writing is untranslated.) -/
def univNl : Str → Str
  | [] => []
  | '\r' :: '\n' :: cs => '\n' :: univNl cs
  | '\r' :: cs => '\n' :: univNl cs
  | c :: cs => c :: univNl cs

/-- Rejoin lines with newlines; this is the str.join in read_file. -/
def joinNl : List Str → Str
  | [] => []
  | [l] => l
  | l :: ls => l ++ '\n' :: joinNl ls

/-- The whitespace characters Python str.strip removes by default: the
characters for which str.isspace holds, that is the ASCII whitespace
and separator controls plus the Unicode space characters. -/
def isPyWs (c : Char) : Bool :=
  c = ' ' ∨ c = '\t' ∨ c = '\n' ∨ c = '\r' ∨ c = '\x0b' ∨ c = '\x0c' ∨
    c = '\x1c' ∨ c = '\x1d' ∨ c = '\x1e' ∨ c = '\x1f' ∨ c = '\x85' ∨
    c = '\xa0' ∨ c = '\u1680' ∨ ('\u2000' ≤ c ∧ c ≤ '\u200a') ∨
    c = '\u2028' ∨ c = '\u2029' ∨ c = '\u202f' ∨ c = '\u205f' ∨
    c = '\u3000'

/-- Python str.strip(): drop whitespace from both ends. -/
def pyStrip (l : Str) : Str :=
  ((l.dropWhile isPyWs).reverse.dropWhile isPyWs).reverse

/-! ## Tool results and the filesystem -/

/-- The normalized result dict every tool produces. -/
structure ToolResult where
  status : String
  output : Str
  deriving DecidableEq, Repr

/-- The sandbox filesystem: resolved absolute path to file contents.
write_file conses a fresh binding; reads see the newest one. -/
abbrev FS := List (Str × Str)

/-- os.path.exists plus open().read() over the embedded filesystem. -/
def lookupFS (fs : FS) (p : Str) : Option Str :=
  (fs.find? (fun kv => kv.1 = p)).map (fun kv => kv.2)

/-! ## run_shell (tools.py lines 21-40)

The subprocess.run call is abstracted by a ShellOutcome: the command
completed within the 30 second bound with captured stdout, stderr and
an exit code, or timed out (subprocess.TimeoutExpired), or the launch
itself failed (the generic except branch, with the stringified
exception).  The exit code of a completed command is carried but,
exactly as in the code, never inspected. -/

/-- Abstract outcome of subprocess.run for one command. -/
inductive ShellOutcome where
  | completed (stdout stderr : Str) (exitCode : Int)
  | timeout
  | launchFailure (msg : Str)
  deriving DecidableEq, Repr

/-- The wall clock bound passed to subprocess.run. -/
def RUN_SHELL_TIMEOUT_SECONDS : Nat := 30

/-- tools.py run_shell, given the outcome of its subprocess.run call. -/
def run_shell (outcome : ShellOutcome) : ToolResult :=
  match outcome with
  | ShellOutcome.completed out err _exitCode =>
    let o := pyStrip (out ++ '\n' :: err)
    if o = [] then
      ⟨"success", "Command executed successfully (no output).".toList⟩
    else ⟨"success", o⟩
  | ShellOutcome.timeout => ⟨"error", "Error: Command timed out.".toList⟩
  | ShellOutcome.launchFailure msg =>
    ⟨"error", "Error executing command: ".toList ++ msg⟩

/-! ## write_file and read_file (tools.py lines 43-76) -/

/-- tools.py write_file: validate the path, then overwrite the target;
a guard rejection is caught and stringified. Returns the result and
the updated filesystem. -/
def write_file (wd : Str) (fs : FS) (file_path contents : Str) :
    ToolResult × FS :=
  match validate_path wd file_path with
  | Except.error e => (⟨"error", "Error writing file: ".toList ++ e⟩, fs)
  | Except.ok safe =>
    (⟨"success", "Successfully wrote to ".toList ++ file_path⟩,
      (safe, contents) :: fs)

/-- tools.py read_file: validate, check existence, read the stored
bytes in text mode (which decodes universal newlines), and truncate to
the first num_lines lines when a limit is supplied; a negative limit
is rejected, and the guard rejection is caught and stringified. -/
def read_file (wd : Str) (fs : FS) (file_path : Str)
    (num_lines : Option Int) : ToolResult :=
  match validate_path wd file_path with
  | Except.error e => ⟨"error", "Error reading file: ".toList ++ e⟩
  | Except.ok safe =>
    match lookupFS fs safe with
    | none => ⟨"error", "Error: File not found.".toList⟩
    | some stored =>
      let data := univNl stored
      match num_lines with
      | none => ⟨"success", data⟩
      | some n =>
        if n < 0 then
          ⟨"error", "Error: num_lines must be positive.".toList⟩
        else ⟨"success", joinNl ((splitlinesL data).take n.toNat)⟩

/-! ## Agent orchestration (agent.py)

Tool call arguments are a dict from parameter name to a string or
integer value.  Calling func(**args) binds them against the tool
function signature; a binding that does not fit raises TypeError, which
the dispatch catches in its generic except branch (no tool body runs). -/

/-- A JSON style argument value as the model supplies it. -/
inductive JValue where
  | vstr (s : Str)
  | vint (n : Int)
  deriving DecidableEq, Repr

/-- An argument mapping: parameter name to value. -/
abbrev Args := List (String × JValue)

/-- agent.py PendingToolCall. -/
structure PendingToolCall where
  tool_name : String
  args : Args
  deriving DecidableEq, Repr

/-- agent.py ToolEvent. -/
structure ToolEvent where
  name : String
  status : String
  output : Str
  deriving DecidableEq, Repr

/-- agent.py AgentReply. -/
structure AgentReply where
  text : Option Str
  pending_tool : Option PendingToolCall
  tool_events : List ToolEvent
  deriving DecidableEq, Repr

/-- A model response: optional text plus tool call requests. -/
structure FCall where
  name : String
  args : Args
  deriving DecidableEq, Repr

/-- The response object returned by client.models.generate_content. -/
structure ModelResponse where
  text : Option Str
  function_calls : List FCall
  deriving DecidableEq, Repr

/-- Bind **args against run_shell(command): exactly the one required
string parameter. -/
def bindRunShell (args : Args) : Option Str :=
  match args with
  | [(k, JValue.vstr s)] => if k = "command" then some s else none
  | _ => none

/-- Bind **args against write_file(file_path, contents): both required
string parameters, in either dict order. -/
def bindWriteFile (args : Args) : Option (Str × Str) :=
  match args with
  | [(k1, JValue.vstr a), (k2, JValue.vstr b)] =>
    if k1 = "file_path" ∧ k2 = "contents" then some (a, b)
    else if k1 = "contents" ∧ k2 = "file_path" then some (b, a)
    else none
  | _ => none

/-- Bind **args against read_file(file_path, num_lines=None): the
string path required, the integer limit optional, in either order. -/
def bindReadFile (args : Args) : Option (Str × Option Int) :=
  match args with
  | [(k, JValue.vstr f)] => if k = "file_path" then some (f, none) else none
  | [(k1, JValue.vstr f), (k2, JValue.vint n)] =>
    if k1 = "file_path" ∧ k2 = "num_lines" then some (f, some n) else none
  | [(k1, JValue.vint n), (k2, JValue.vstr f)] =>
    if k1 = "num_lines" ∧ k2 = "file_path" then some (f, some n) else none
  | _ => none

/-- The keys of TOOL_FUNCTIONS in tools.py. -/
def TOOL_FUNCTION_NAMES : List String := ["run_shell", "write_file", "read_file"]

/-- A record that a tool function body actually ran: the tool name and
the argument mapping it was invoked with. -/
abbrev ExecRecord := String × Args

/-- agent.py Agent._execute_tool_function: look the name up in
TOOL_FUNCTIONS (a miss is an error shaped result, not an exception),
call func(**args) (a TypeError from binding is caught by the generic
except branch), and renormalize the returned dict.  outcomeOf abstracts
the subprocess behind run_shell.  Besides the result and the updated
filesystem it returns the list of tool bodies that actually ran. -/
def executeToolFunction (outcomeOf : Str → ShellOutcome) (wd : Str)
    (fs : FS) (tool_name : String) (args : Args) :
    ToolResult × FS × List ExecRecord :=
  let bindError : ToolResult :=
    ⟨"error", "Error while running ".toList ++ tool_name.toList ++
      ": invalid arguments".toList⟩
  if tool_name = "run_shell" then
    match bindRunShell args with
    | none => (bindError, fs, [])
    | some cmd => (run_shell (outcomeOf cmd), fs, [(tool_name, args)])
  else if tool_name = "write_file" then
    match bindWriteFile args with
    | none => (bindError, fs, [])
    | some (f, c) =>
      let (r, fs2) := write_file wd fs f c
      (r, fs2, [(tool_name, args)])
  else if tool_name = "read_file" then
    match bindReadFile args with
    | none => (bindError, fs, [])
    | some (f, n) => (read_file wd fs f n, fs, [(tool_name, args)])
  else
    (⟨"error", "Error: Unknown tool '".toList ++ tool_name.toList ++
      "'.".toList⟩, fs, [])

/-- agent.py Agent._build_tool_event. -/
def buildToolEvent (tool_name : String) (r : ToolResult) : ToolEvent :=
  ⟨tool_name, r.status, r.output⟩

/-- agent.py Agent._format_tool_message. -/
def formatToolMessage (e : ToolEvent) : Str :=
  let o := if e.output = [] then "(no output)".toList else e.output
  "Tool ".toList ++ e.name.toList ++ " (".toList ++ e.status.toList ++
    "):\n".toList ++ o

/-- agent.py clean_text helper: join the nonempty segments with
newlines, strip, and turn an empty result into None. -/
def cleanText (segments : List Str) : Option Str :=
  let joined := pyStrip (joinNl (segments.filter (fun p => p ≠ [])))
  if joined = [] then none else some joined

/-- What one orchestrator entry point did: the reply it returned (none
when the oracle of model responses ran dry mid loop, the place the
real code would surface an upstream failure), the filesystem after it,
the tool bodies that ran, and the contents of every generate_content
request it issued, in order. -/
structure TurnOutcome where
  reply : Option AgentReply
  fs : FS
  execTrace : List ExecRecord
  sentToModel : List Str
  deriving Repr

/-- agent.py Agent._process_response: the tool cycling loop.  Text of
the response is accumulated when truthy; with no tool calls the loop
ends in a plain reply; otherwise only the first call of the response
matters per iteration: run_shell suspends into a PendingToolCall, any
other tool executes at once, its formatted event is sent to the model,
and the loop continues on the next response of the oracle. -/
def processResponse (outcomeOf : Str → ShellOutcome) (wd : Str)
    (resp : ModelResponse) (oracle : List ModelResponse) (fs : FS)
    (segments : List Str) (events : List ToolEvent) : TurnOutcome :=
  let segments := match resp.text with
    | some t => if t ≠ [] then segments ++ [t] else segments
    | none => segments
  match resp.function_calls with
  | [] => ⟨some ⟨cleanText segments, none, events⟩, fs, [], []⟩
  | call :: _rest =>
    if call.name = "run_shell" then
      ⟨some ⟨cleanText segments, some ⟨call.name, call.args⟩, events⟩,
        fs, [], []⟩
    else
      let e := executeToolFunction outcomeOf wd fs call.name call.args
      let event := buildToolEvent call.name e.1
      let msg := formatToolMessage event
      match oracle with
      | [] => ⟨none, e.2.1, e.2.2, [msg]⟩
      | next :: rest =>
        let o := processResponse outcomeOf wd next rest e.2.1 segments
          (events ++ [event])
        ⟨o.reply, o.fs, e.2.2 ++ o.execTrace, msg :: o.sentToModel⟩

/-- agent.py Agent.handle_user_input: send the user text to the model
(consume the first oracle response) and run the tool cycling loop. -/
def handleUserInput (outcomeOf : Str → ShellOutcome) (wd : Str)
    (oracle : List ModelResponse) (fs : FS) (user_msg : Str) :
    TurnOutcome :=
  match oracle with
  | [] => ⟨none, fs, [], [user_msg]⟩
  | resp :: rest =>
    let o := processResponse outcomeOf wd resp rest fs [] []
    ⟨o.reply, o.fs, o.execTrace, user_msg :: o.sentToModel⟩

/-- The synthetic denial that stands in for a denied tool output. -/
def deniedResult : ToolResult :=
  ⟨"error", "User denied permission to execute this command.".toList⟩

/-- The decision step of agent.py Agent.handle_tool_decision, before
anything is sent back to the model: denial substitutes deniedResult
and runs nothing; approval dispatches the pending name and arguments
through the executor. -/
def decideToolResult (outcomeOf : Str → ShellOutcome) (wd : Str)
    (fs : FS) (pending : PendingToolCall) (approved : Bool) :
    ToolResult × FS × List ExecRecord :=
  if approved = false then (deniedResult, fs, [])
  else executeToolFunction outcomeOf wd fs pending.tool_name pending.args

/-- agent.py Agent.handle_tool_decision: take the decision step, build
the ToolEvent, send its formatted message to the model, and resume the
tool cycling loop with that event as the turn event log. -/
def handleToolDecision (outcomeOf : Str → ShellOutcome) (wd : Str)
    (oracle : List ModelResponse) (fs : FS) (pending : PendingToolCall)
    (approved : Bool) : TurnOutcome :=
  let d := decideToolResult outcomeOf wd fs pending approved
  let event := buildToolEvent pending.tool_name d.1
  let msg := formatToolMessage event
  match oracle with
  | [] => ⟨none, d.2.1, d.2.2, [msg]⟩
  | resp :: rest =>
    let o := processResponse outcomeOf wd resp rest d.2.1 [] [event]
    ⟨o.reply, o.fs, d.2.2 ++ o.execTrace, msg :: o.sentToModel⟩

/-! ## C1: path guard containment -/

instance : DecidableEq (Except Str Str) :=
  fun a b =>
    match a, b with
    | Except.ok x, Except.ok y => decidable_of_iff (x = y) (by simp)
    | Except.error x, Except.error y => decidable_of_iff (x = y) (by simp)
    | Except.ok _, Except.error _ => isFalse (by simp)
    | Except.error _, Except.ok _ => isFalse (by simp)

/-- C1 counterexample: the guard checks a raw string prefix, so a
sibling directory whose name extends the sandbox root by ordinary
characters is accepted.  With root /home/user/playground the relative
path ../playground2/secret.txt canonicalizes to
/home/user/playground2/secret.txt, which the guard returns although it
is not the root nor a descendant of it, refuting the claim that
validate_path never returns a path outside the root. -/
theorem C1_counterexample :
    validate_path "/home/user/playground".toList
        "../playground2/secret.txt".toList
      = Except.ok "/home/user/playground2/secret.txt".toList
    ∧ ¬ specDescendant "/home/user/playground".toList
        "/home/user/playground2/secret.txt".toList := by
  decide

/-- C1 amended: validate_path canonicalizes the joined path lexically
(resolving dot-dot segments, not symlinks) and then performs a raw
string prefix check against the root on that canonicalized path; every
path it returns is the canonicalization and has the root as a string
prefix, but need not be a descendant of the root. -/
theorem C1_validate_path_characterization (wd p full : Str)
    (h : validate_path wd p = Except.ok full) :
    full = normpathAbs (osJoin wd p) ∧ wd.isPrefixOf full := by
  by_cases hpre : (List.isPrefixOf wd (normpathAbs (osJoin wd p)) : Bool)
  · simp only [validate_path, hpre, if_true] at h
    cases h
    exact ⟨rfl, hpre⟩
  · simp only [validate_path, hpre, Bool.false_eq_true, if_false,
      reduceCtorEq] at h

/-- C1 witness: the amended theorem applied to the sandbox root /w and
the relative path a.txt. -/
theorem C1_witness :
    "/w/a.txt".toList = normpathAbs (osJoin "/w".toList "a.txt".toList)
    ∧ ("/w".toList.isPrefixOf "/w/a.txt".toList : Bool) := by
  have h := C1_validate_path_characterization "/w".toList "a.txt".toList
    "/w/a.txt".toList (by decide)
  exact ⟨h.1, h.2⟩

/-! ## C4: run_shell error status exactly for launch failure or timeout -/

/-- C4: run_shell reports status error exactly when the subprocess
launch failed or the 30 second timeout expired; a command that
completed reports success whatever its exit code, with its text in the
output, and a timeout produces the fixed timeout error result value
rather than an uncaught exception. -/
theorem C4_run_shell_error_iff (o : ShellOutcome) (out err : Str)
    (code : Int) :
    ((run_shell o).status = "error"
      ↔ o = ShellOutcome.timeout ∨ ∃ m, o = ShellOutcome.launchFailure m)
    ∧ (run_shell (ShellOutcome.completed out err code)).status = "success"
    ∧ run_shell ShellOutcome.timeout
      = ⟨"error", "Error: Command timed out.".toList⟩ := by
  refine ⟨?_, ?_, rfl⟩
  · cases o <;> simp [run_shell]
    split <;> simp
  · simp only [run_shell]
    split <;> rfl

/-- C4 witness: the characterization applied to a completed command
with a nonzero exit code and to a timeout. -/
theorem C4_witness :
    (run_shell (ShellOutcome.completed "x".toList "boom".toList 1)).status
      = "success"
    ∧ (run_shell ShellOutcome.timeout).status = "error" := by
  have h := C4_run_shell_error_iff ShellOutcome.timeout "x".toList
    "boom".toList 1
  exact ⟨h.2.1, h.1.mpr (Or.inl rfl)⟩

/-! ## C10: a completed command never yields an empty output -/

/-- C10: for a command that launches and completes within the timeout,
run_shell returns success and its output is never empty: when the
stripped concatenation of stdout and stderr is empty the fixed
placeholder text is substituted, otherwise the stripped concatenation
itself is returned. -/
theorem C10_run_shell_nonempty_output (out err : Str) (code : Int) :
    (run_shell (ShellOutcome.completed out err code)).status = "success"
    ∧ (run_shell (ShellOutcome.completed out err code)).output ≠ []
    ∧ (pyStrip (out ++ '\n' :: err) = [] →
        (run_shell (ShellOutcome.completed out err code)).output
          = "Command executed successfully (no output).".toList)
    ∧ (pyStrip (out ++ '\n' :: err) ≠ [] →
        (run_shell (ShellOutcome.completed out err code)).output
          = pyStrip (out ++ '\n' :: err)) := by
  simp only [run_shell]
  split
  · rename_i hempty
    exact ⟨rfl, by decide, fun _ => rfl, fun hne => absurd hempty hne⟩
  · rename_i hne
    exact ⟨rfl, hne, fun h => absurd h hne, fun _ => rfl⟩

/-- C10 witness: a command with no output at all gets the placeholder
text, so the output is not empty. -/
theorem C10_witness :
    (run_shell (ShellOutcome.completed [] [] 0)).output
      = "Command executed successfully (no output).".toList :=
  (C10_run_shell_nonempty_output [] [] 0).2.2.1 (by decide)

/-! ## C5: a zero line limit is not rejected -/

/-- C5: the code checks num_lines strictly below zero only, although
its own error text says the limit must be positive and its declared
schema gives the parameter a minimum of one; a supplied limit of zero
therefore passes validation and returns success with empty output
instead of the validation error the claim requires. -/
theorem C5_zero_limit_not_rejected :
    read_file "/w".toList [("/w/f.txt".toList, "x\ny\n".toList)]
      "f.txt".toList (some 0) = ⟨"success", []⟩
    ∧ read_file "/w".toList [("/w/f.txt".toList, "x\ny\n".toList)]
      "f.txt".toList (some 0)
      ≠ ⟨"error", "Error: num_lines must be positive.".toList⟩ := by
  decide

/-! ## C6: positive line limits truncate to min(k, N) leading lines -/

/-- C6: on an existing in-sandbox file, read_file with a positive limit
k succeeds, and its output is the first k lines of the decoded file
text rejoined with newlines; those are exactly min(k, N) leading lines
of the N line file, in their original order. -/
theorem C6_read_file_limit (wd : Str) (fs : FS) (fp safe data : Str)
    (k : Int) (hv : validate_path wd fp = Except.ok safe)
    (hl : lookupFS fs safe = some data) (hk : 0 < k) :
    read_file wd fs fp (some k)
      = ⟨"success", joinNl ((splitlinesL (univNl data)).take k.toNat)⟩
    ∧ (splitlinesL (univNl data)).take k.toNat
      = (splitlinesL (univNl data)).take
          (min k.toNat (splitlinesL (univNl data)).length)
    ∧ ((splitlinesL (univNl data)).take k.toNat).length
      = min k.toNat (splitlinesL (univNl data)).length := by
  refine ⟨?_, ?_, List.length_take _ _⟩
  · simp only [read_file, hv, hl]
    rw [if_neg (by omega)]
  · rw [← List.take_take, List.take_length]

/-- C6 witness: the theorem applied to a three line file with limit
two, giving the first two lines. -/
theorem C6_witness :
    read_file "/w".toList [("/w/f.txt".toList, "x\ny\nz".toList)]
      "f.txt".toList (some 2) = ⟨"success", "x\ny".toList⟩ := by
  have h := C6_read_file_limit "/w".toList
    [("/w/f.txt".toList, "x\ny\nz".toList)] "f.txt".toList
    "/w/f.txt".toList "x\ny\nz".toList 2 (by decide) (by decide)
    (by decide)
  rw [h.1]
  decide

/-! ## C7: write then read round-trip -/

lemma univNl_cons_of_ne (c : Char) (cs : Str) (h : c ≠ '\r') :
    univNl (c :: cs) = c :: univNl cs := by
  rw [univNl.eq_def]
  split
  · rename_i heq
    exact absurd heq (List.cons_ne_nil c cs)
  · rename_i cs2 heq
    injection heq with h1 h2
    exact absurd h1 h
  · rename_i cs2 heq
    injection heq with h1 h2
    exact absurd h1 h
  · rename_i c2 cs2 hno heq
    injection heq with h1 h2
    subst h1
    subst h2
    rfl

lemma univNl_of_no_cr (l : Str) (h : '\r' ∉ l) : univNl l = l := by
  induction l with
  | nil => rfl
  | cons c cs ih =>
    have hc : c ≠ '\r' := by
      intro hr
      exact h (by rw [← hr]; exact List.mem_cons_self c cs)
    rw [univNl_cons_of_ne c cs hc,
      ih (fun hm => h (List.mem_cons_of_mem c hm))]

/-- C7 counterexample: the source reads in text mode with the default
newline handling, which decodes universal newlines, so contents
containing a carriage return do not round trip: writing a string with
a CRLF line ending and reading it back returns the LF version, not the
written contents. -/
theorem C7_counterexample :
    read_file "/w".toList
      (write_file "/w".toList [] "f.txt".toList "x\r\ny".toList).2
      "f.txt".toList none
      = ⟨"success", "x\ny".toList⟩
    ∧ "x\ny".toList ≠ "x\r\ny".toList := by
  decide

/-- C7 amended: for an in-sandbox path, write_file succeeds and a
read_file of the same path with no line limit succeeds and returns the
written contents with universal newline decoding applied (CRLF pairs
and lone CRs become LF); for contents free of carriage returns the
decoding is the identity, so the round trip returns exactly the
written contents. -/
theorem C7_write_read_roundtrip (wd : Str) (fs : FS)
    (fp contents safe : Str) (hv : validate_path wd fp = Except.ok safe) :
    (write_file wd fs fp contents).1.status = "success"
    ∧ read_file wd (write_file wd fs fp contents).2 fp none
      = ⟨"success", univNl contents⟩
    ∧ ('\r' ∉ contents → univNl contents = contents) := by
  refine ⟨?_, ?_, fun h => univNl_of_no_cr contents h⟩
  · simp [write_file, hv]
  · simp [write_file, read_file, hv, lookupFS, List.find?]

/-- C7 witness: the amended round trip applied to one concrete path
and carriage return free contents, for which it is the identity. -/
theorem C7_witness :
    read_file "/w".toList
      (write_file "/w".toList [] "f.txt".toList "hello\nworld".toList).2
      "f.txt".toList none
      = ⟨"success", "hello\nworld".toList⟩ := by
  have h := C7_write_read_roundtrip "/w".toList [] "f.txt".toList
    "hello\nworld".toList "/w/f.txt".toList (by decide)
  rw [h.2.1, h.2.2 (by decide)]

/-! ## C8: dispatch never escapes the status/output shape -/

lemma run_shell_status (o : ShellOutcome) :
    (run_shell o).status = "success" ∨ (run_shell o).status = "error" := by
  cases o with
  | completed out err code =>
    left
    simp only [run_shell]
    split <;> rfl
  | timeout => right; rfl
  | launchFailure m => right; rfl

lemma write_file_status (wd : Str) (fs : FS) (fp contents : Str) :
    (write_file wd fs fp contents).1.status = "success"
    ∨ (write_file wd fs fp contents).1.status = "error" := by
  unfold write_file
  rcases validate_path wd fp with e | safe
  · right; rfl
  · left; rfl

lemma read_file_status (wd : Str) (fs : FS) (fp : Str)
    (num_lines : Option Int) :
    (read_file wd fs fp num_lines).status = "success"
    ∨ (read_file wd fs fp num_lines).status = "error" := by
  unfold read_file
  rcases validate_path wd fp with e | safe
  · right; rfl
  · dsimp only
    rcases lookupFS fs safe with _ | data
    · right; rfl
    · dsimp only
      rcases num_lines with _ | n
      · left; rfl
      · dsimp only
        by_cases hn : n < 0
        · right; simp [hn]
        · left; simp [hn]

/-- C8: a tool name outside the catalog dispatches to an error shaped
result carrying the unknown tool message, touching neither the
filesystem nor any tool body; and for every tool name and argument
mapping, the dispatch returns a result whose status is success or
error, so no exception escapes the executor boundary. -/
theorem C8_dispatch_total (outcomeOf : Str → ShellOutcome) (wd : Str)
    (fs : FS) (tool_name : String) (args : Args)
    (hmiss : tool_name ∉ TOOL_FUNCTION_NAMES) :
    executeToolFunction outcomeOf wd fs tool_name args
      = (⟨"error", "Error: Unknown tool '".toList ++ tool_name.toList ++
          "'.".toList⟩, fs, [])
    ∧ (∀ (name2 : String) (args2 : Args),
        (executeToolFunction outcomeOf wd fs name2 args2).1.status
          = "success"
        ∨ (executeToolFunction outcomeOf wd fs name2 args2).1.status
          = "error") := by
  constructor
  · simp only [TOOL_FUNCTION_NAMES, List.mem_cons, List.not_mem_nil,
      or_false, not_or] at hmiss
    simp [executeToolFunction, hmiss.1, hmiss.2.1, hmiss.2.2]
  · intro name2 args2
    unfold executeToolFunction
    dsimp only
    split
    · rcases bindRunShell args2 with _ | cmd
      · right; rfl
      · exact run_shell_status _
    · split
      · rcases hb : bindWriteFile args2 with _ | ⟨f, c⟩
        · simp [hb]
        · simp only [hb]; exact write_file_status wd fs f c
      · split
        · rcases hb : bindReadFile args2 with _ | ⟨f, n⟩
          · simp [hb]
          · simp only [hb]; exact read_file_status wd fs f n
        · right; rfl

/-- C8 witness: dispatching a tool name that is not in the catalog
yields the error shaped unknown tool result. -/
theorem C8_witness :
    executeToolFunction (fun _ => ShellOutcome.timeout) "/w".toList []
      "delete_everything" []
      = (⟨"error",
          "Error: Unknown tool 'delete_everything'.".toList⟩, [], []) := by
  have h := (C8_dispatch_total (fun _ => ShellOutcome.timeout) "/w".toList
    [] "delete_everything" [] (by decide)).1
  rw [h]
  rfl

/-! ## C9: a limited read strips exactly the final trailing newline -/

lemma splitlinesL_ne_nil (c : Char) (cs : Str) : splitlinesL (c :: cs) ≠ [] := by
  rw [splitlinesL.eq_def]
  split
  · rename_i heq
    exact absurd heq (List.cons_ne_nil c cs)
  · exact List.cons_ne_nil _ _
  · split
    · exact List.cons_ne_nil _ _
    · split <;> exact List.cons_ne_nil _ _

lemma splitlinesL_cons_break (c : Char) (cs : Str) (hc : c ≠ '\r')
    (hb : isLineBreak c = true) :
    splitlinesL (c :: cs) = [] :: splitlinesL cs := by
  rw [splitlinesL.eq_def]
  split
  · rename_i heq
    exact absurd heq (List.cons_ne_nil c cs)
  · rename_i cs2 heq
    injection heq with h1 h2
    exact absurd h1 hc
  · rename_i c2 cs2 hno heq
    injection heq with h1 h2
    subst h1
    subst h2
    rw [if_pos hb]

lemma splitlinesL_cons_ord (c : Char) (cs : Str)
    (hb : isLineBreak c = false) :
    splitlinesL (c :: cs)
      = match splitlinesL cs with
        | [] => [[c]]
        | l :: ls => (c :: l) :: ls := by
  have hc : c ≠ '\r' := by
    intro hr
    rw [hr] at hb
    exact absurd hb (by decide)
  rw [splitlinesL.eq_def]
  split
  · rename_i heq
    exact absurd heq (List.cons_ne_nil c cs)
  · rename_i cs2 heq
    injection heq with h1 h2
    exact absurd h1 hc
  · rename_i c2 cs2 hno heq
    injection heq with h1 h2
    subst h1
    subst h2
    rw [if_neg (by simp [hb])]

lemma joinNl_cons_cons (c : Char) (p : Str) (ps : List Str) :
    joinNl ((c :: p) :: ps) = c :: joinNl (p :: ps) := by
  cases ps <;> simp [joinNl]

lemma joinNl_splitlinesL (l : Str)
    (hlb : ∀ c ∈ l, isLineBreak c = true → c = '\n')
    (h : l.getLast? = some '\n') :
    joinNl (splitlinesL l) = l.dropLast := by
  induction l with
  | nil => simp at h
  | cons c cs ih =>
    have hlb2 : ∀ x ∈ cs, isLineBreak x = true → x = '\n' :=
      fun x hx => hlb x (List.mem_cons_of_mem _ hx)
    cases cs with
    | nil =>
      simp only [List.getLast?_singleton, Option.some.injEq] at h
      subst h
      rfl
    | cons d ds =>
      have hcs : (d :: ds : Str).getLast? = some '\n' := by
        rwa [List.getLast?_cons_cons] at h
      have ih2 := ih hlb2 hcs
      have hne := splitlinesL_ne_nil d ds
      obtain ⟨p, ps, hp⟩ := List.exists_cons_of_ne_nil hne
      by_cases hc : c = '\n'
      · subst hc
        rw [splitlinesL_cons_break '\n' (d :: ds) (by decide) (by decide),
          hp]
        show ('\n' :: joinNl (p :: ps)) = _
        rw [← hp, ih2]
        rfl
      · have hnb : isLineBreak c = false := by
          cases hb : isLineBreak c
          · rfl
          · exact absurd (hlb c (List.mem_cons_self c _) hb) hc
        rw [splitlinesL_cons_ord c (d :: ds) hnb, hp]
        show joinNl ((c :: p) :: ps) = _
        rw [joinNl_cons_cons, ← hp, ih2]
        rfl

/-- C9 amended: on a file whose contents end in a newline and contain
no line boundary character other than the newline itself, a limited
read whose limit is at least the number of lines returns the contents
with exactly the final newline character removed (one character, even
when several newlines are trailing), so it is never byte identical to
the unlimited read of the same file. -/
theorem C9_read_file_strips_final_newline (wd : Str) (fs : FS)
    (fp safe data : Str) (k : Int)
    (hv : validate_path wd fp = Except.ok safe)
    (hl : lookupFS fs safe = some data)
    (hlb : ∀ c ∈ data, isLineBreak c = true → c = '\n')
    (hend : data.getLast? = some '\n')
    (hk : ((splitlinesL data).length : Int) ≤ k) :
    read_file wd fs fp (some k) = ⟨"success", data.dropLast⟩
    ∧ data.dropLast ≠ data := by
  have hdne : data ≠ [] := by
    intro h0
    rw [h0] at hend
    simp at hend
  obtain ⟨c, cs, hd⟩ := List.exists_cons_of_ne_nil hdne
  have hlen1 : 1 ≤ (splitlinesL data).length := by
    rw [hd]
    exact List.length_pos.mpr (splitlinesL_ne_nil c cs)
  have hcr : '\r' ∉ data := fun hm =>
    absurd (hlb '\r' hm (by decide)) (by decide)
  constructor
  · simp only [read_file, hv, hl]
    rw [univNl_of_no_cr data hcr, if_neg (by omega),
      List.take_of_length_le (by omega),
      joinNl_splitlinesL data hlb hend]
  · intro heq
    have hlen := congrArg List.length heq
    rw [List.length_dropLast, hd] at hlen
    simp only [List.length_cons] at hlen
    omega

/-- C9 witness: the amended theorem applied to a two line file ending
in one newline, read with a limit beyond its line count. -/
theorem C9_witness :
    read_file "/w".toList [("/w/f.txt".toList, "x\ny\n".toList)]
      "f.txt".toList (some 7) = ⟨"success", "x\ny".toList⟩ :=
  (C9_read_file_strips_final_newline "/w".toList
    [("/w/f.txt".toList, "x\ny\n".toList)] "f.txt".toList
    "/w/f.txt".toList "x\ny\n".toList 7 (by decide) (by decide)
    (by decide) (by decide) (by decide)).1

/-- C9 counterexample: the claim says the trailing newlines are
removed, but on contents with two trailing newlines and a limit above
the line count the code returns the contents minus only the final
newline, which differs from the contents with its trailing newline
run removed. -/
theorem C9_counterexample :
    read_file "/w".toList [("/w/f.txt".toList, "a\n\n".toList)]
      "f.txt".toList (some 5) = ⟨"success", "a\n".toList⟩
    ∧ (("a\n\n".toList.reverse.dropWhile (fun c => c = '\n')).reverse
        = "a".toList)
    ∧ "a\n".toList ≠ "a".toList := by
  decide

/-! ## C2: a run_shell request suspends the turn -/

/-- C2: when the first tool call of the model response that opens the
turn names run_shell, handle_user_input leaves the filesystem
untouched, executes no tool body, issues no model request beyond the
user message itself, and returns a reply whose pending_tool carries
exactly that call name and arguments and whose event log is empty. -/
theorem C2_run_shell_suspends (outcomeOf : Str → ShellOutcome) (wd : Str)
    (resp : ModelResponse) (rest : List ModelResponse) (fs : FS)
    (user_msg : Str) (call : FCall) (more : List FCall)
    (hcalls : resp.function_calls = call :: more)
    (hname : call.name = "run_shell") :
    (handleUserInput outcomeOf wd (resp :: rest) fs user_msg).fs = fs
    ∧ (handleUserInput outcomeOf wd (resp :: rest) fs user_msg).execTrace
      = []
    ∧ (handleUserInput outcomeOf wd (resp :: rest) fs user_msg).sentToModel
      = [user_msg]
    ∧ ∃ a, (handleUserInput outcomeOf wd (resp :: rest) fs user_msg).reply
        = some a
      ∧ a.pending_tool = some ⟨call.name, call.args⟩
      ∧ a.tool_events = [] := by
  obtain ⟨t, calls⟩ := resp
  obtain ⟨cname, cargs⟩ := call
  dsimp only at hcalls hname
  subst hcalls
  subst hname
  simp only [handleUserInput]
  rw [processResponse.eq_def]
  dsimp only
  rw [if_pos rfl]
  exact ⟨rfl, rfl, rfl, _, rfl, rfl, rfl⟩

/-- C2 witness: the theorem applied to a one response oracle whose
single tool call requests run_shell with a concrete command. -/
theorem C2_witness :
    (handleUserInput (fun _ => ShellOutcome.timeout) "/w".toList
      [⟨none, [⟨"run_shell", [("command", JValue.vstr "ls -la".toList)]⟩]⟩]
      [] "list files".toList).execTrace = [] :=
  (C2_run_shell_suspends (fun _ => ShellOutcome.timeout) "/w".toList
    ⟨none, [⟨"run_shell", [("command", JValue.vstr "ls -la".toList)]⟩]⟩
    [] [] "list files".toList
    ⟨"run_shell", [("command", JValue.vstr "ls -la".toList)]⟩ []
    rfl rfl).2.1

/-! ## C3: tool decision semantics -/

lemma processResponse_reply_events (outcomeOf : Str → ShellOutcome)
    (wd : Str) :
    ∀ (oracle : List ModelResponse) (resp : ModelResponse) (fs : FS)
      (segments : List Str) (events : List ToolEvent) (a : AgentReply),
      (processResponse outcomeOf wd resp oracle fs segments events).reply
        = some a →
      ∃ tail, a.tool_events = events ++ tail := by
  intro oracle
  induction oracle with
  | nil =>
    intro resp fs segments events a h
    rw [processResponse.eq_def] at h
    obtain ⟨t, calls⟩ := resp
    cases calls with
    | nil =>
      injection h with h2
      exact ⟨[], by rw [← h2]; simp⟩
    | cons call more =>
      dsimp only at h
      split at h
      · injection h with h2
        exact ⟨[], by rw [← h2]; simp⟩
      · dsimp only at h
        exact Option.noConfusion h
  | cons next rest ih =>
    intro resp fs segments events a h
    rw [processResponse.eq_def] at h
    obtain ⟨t, calls⟩ := resp
    cases calls with
    | nil =>
      injection h with h2
      exact ⟨[], by rw [← h2]; simp⟩
    | cons call more =>
      dsimp only at h
      split at h
      · injection h with h2
        exact ⟨[], by rw [← h2]; simp⟩
      · dsimp only at h
        obtain ⟨tail, ht⟩ := ih next _ _ _ a h
        exact ⟨buildToolEvent call.name
            (executeToolFunction outcomeOf wd fs call.name call.args).1
            :: tail,
          by rw [ht, List.append_assoc]; rfl⟩

/-- C3: denial of a pending call executes nothing, leaves the
filesystem untouched and substitutes the fixed denial result; approval
dispatches the pending tool name with exactly the originally proposed
arguments, recorded as exactly one execution; and for either decision
the first message sent back to the model is the formatted ToolEvent
built from the decision result, and that ToolEvent heads the event log
of any reply the turn produces. -/
theorem C3_tool_decision (outcomeOf : Str → ShellOutcome) (wd : Str)
    (fs : FS) (pending : PendingToolCall) (oracle : List ModelResponse)
    (cmd : Str) (hname : pending.tool_name = "run_shell")
    (hbind : bindRunShell pending.args = some cmd) :
    decideToolResult outcomeOf wd fs pending false = (deniedResult, fs, [])
    ∧ decideToolResult outcomeOf wd fs pending true
      = (run_shell (outcomeOf cmd), fs,
          [(pending.tool_name, pending.args)])
    ∧ (∀ approved, (handleToolDecision outcomeOf wd oracle fs pending
          approved).sentToModel.head?
        = some (formatToolMessage (buildToolEvent pending.tool_name
            (decideToolResult outcomeOf wd fs pending approved).1)))
    ∧ (∀ approved a, (handleToolDecision outcomeOf wd oracle fs pending
          approved).reply = some a →
        a.tool_events.head? = some (buildToolEvent pending.tool_name
          (decideToolResult outcomeOf wd fs pending approved).1)) := by
  refine ⟨rfl, ?_, ?_, ?_⟩
  · simp only [decideToolResult]
    rw [hname]
    simp only [executeToolFunction, hbind]
    rfl
  · intro approved
    cases oracle with
    | nil => rfl
    | cons r rest => rfl
  · intro approved a h
    cases oracle with
    | nil => exact absurd h (by simp [handleToolDecision])
    | cons r rest =>
      obtain ⟨tail, ht⟩ := processResponse_reply_events outcomeOf wd
        rest r _ [] _ a h
      rw [ht]
      rfl

/-- C3 witness: the theorem applied to a concrete pending run_shell
call over an empty oracle: denial yields the fixed denial result with
no execution, approval yields exactly one execution of the proposed
command. -/
theorem C3_witness :
    decideToolResult (fun _ => ShellOutcome.timeout) "/w".toList []
      ⟨"run_shell", [("command", JValue.vstr "ls".toList)]⟩ false
      = (deniedResult, [], [])
    ∧ decideToolResult (fun _ => ShellOutcome.timeout) "/w".toList []
      ⟨"run_shell", [("command", JValue.vstr "ls".toList)]⟩ true
      = (run_shell (ShellOutcome.timeout), [],
          [("run_shell", [("command", JValue.vstr "ls".toList)])]) := by
  have h := C3_tool_decision (fun _ => ShellOutcome.timeout) "/w".toList
    [] ⟨"run_shell", [("command", JValue.vstr "ls".toList)]⟩ []
    "ls".toList rfl (by decide)
  exact ⟨h.1, h.2.1⟩

end GeminiAgent
